import Mathlib

/-!
Verification development for the go-abls chat client (src/main.go).

The development shallowly embeds the two algorithmic cores of the
repository:

* the streaming response decoder `processStreamResponse` (main.go,
  lines 336-393), which reads a byte stream line by line, skips
  non-event lines, detects the `data: [DONE]` terminator and the
  `finish_reason == "stop"` marker, folds `delta.content` fragments
  into an accumulator and captures the first non-empty `id`;
* the session state (`ChatState`) together with the operations that
  mutate it: initialisation in `main`, `resetConversation`,
  `handleModelSwitch`, `toggleDebugMode`, command recording, and the
  turn orchestration of `processAIResponse` around the user-message
  append performed by `startInteractiveSession` /
  `executeSingleCommand`.

Bytes are modelled as `Char` lists (the source only ever compares
bytes for equality, so this is faithful).  `encoding/json.Unmarshal`
is an external library collaborator; the decoder is parametrised by
an abstract `unmarshal : List Char → Option StreamResponse` standing
for it, applied exactly where the source applies `json.Unmarshal`
(to `line[6:]`, trailing newline included).  Console output
(`fmt.Print*`) is pure presentation and is not modelled; the `debug`
and `streamOutput` parameters of the source only gate printing inside
the decoder, so they do not appear in the embedded decoder.
-/

/-- Go struct `Message` (main.go lines 32-35): one turn of conversation. -/
structure Message where
  role : String
  content : String
deriving DecidableEq, Repr

/-- The `delta` object of `StreamResponse.Choices` (main.go lines 47-49). -/
structure Delta where
  content : String
deriving DecidableEq, Repr

/-- One element of `StreamResponse.Choices` (main.go lines 46-51). -/
structure Choice where
  delta : Delta
  finishReason : String
deriving DecidableEq, Repr

/-- Go struct `StreamResponse` (main.go lines 43-57).  The `Usage` field is
never read by any code under verification and is omitted. -/
structure StreamResponse where
  id : String
  model : String
  choices : List Choice
deriving DecidableEq, Repr

/-- The error outcomes of a turn: JSON parse failure and empty reply
are produced by `processStreamResponse` (lines 362 and 389);
`transportError` stands for the encoding/HTTP failures produced by
`streamChatCompletion` before the decoder runs. -/
inductive ChatError where
  | parseError
  | emptyReply
  | transportError
deriving DecidableEq, Repr

deriving instance DecidableEq for Except

/-! ## Stream decoder (processStreamResponse, main.go lines 336-393) -/

/-- The 6-byte record mark `"data: "` (main.go line 352). -/
def dataMark : List Char := "data: ".data

/-- The byte-exact terminator line `"data: [DONE]\n"` (main.go line 356). -/
def doneLine : List Char := "data: [DONE]\n".data

/-- Phase 1 of the `bufio.Reader.ReadBytes` loop, phase 1: cut the byte stream
into complete newline-terminated lines (each including its `'\n'`).
A trailing run of bytes with no final newline is returned by
`ReadBytes` together with `io.EOF`, and the source (lines 345-349)
breaks out of the loop on `io.EOF` without processing that data, so
the trailing run contributes no line.  `acc` is the partial line read
so far. -/
def splitLinesAux : List Char → List Char → List (List Char)
  | [], _ => []
  | c :: cs, acc =>
    if c = '\n' then (acc ++ [c]) :: splitLinesAux cs []
    else splitLinesAux cs (acc ++ [c])

/-- The complete lines of the byte stream, in arrival order. -/
def splitLines (input : List Char) : List (List Char) :=
  splitLinesAux input []

/-- Post-loop check (main.go lines 388-392): an empty accumulator is
the error `未收到有效回复内容` (no valid reply content); otherwise the
accumulated text and the captured request id are returned. -/
def finishDecode (fullResponse requestID : String) :
    Except ChatError (String × String) :=
  if fullResponse.length = 0 then .error .emptyReply
  else .ok (fullResponse, requestID)

/-- The decode loop body (main.go lines 343-386) over the already-cut
lines.  For each line, in source order: skip it when it is shorter
than 6 bytes or lacks the `"data: "` mark (line 352); stop on the
byte-exact terminator (line 356); otherwise `unmarshal` the bytes
after the mark — newline included, exactly `line[6:]` — failing the
whole decode on a parse failure (lines 360-363); capture the first
non-empty id (lines 369-371); when `choices` is non-empty, append the
delta content of the first choice to the accumulator and stop on
`finish_reason == "stop"` (lines 373-385). -/
def decodeLines (unmarshal : List Char → Option StreamResponse) :
    List (List Char) → String → String → Except ChatError (String × String)
  | [], fullResponse, requestID => finishDecode fullResponse requestID
  | line :: rest, fullResponse, requestID =>
    if line.length < 6 ∨ ¬ dataMark.isPrefixOf line then
      decodeLines unmarshal rest fullResponse requestID
    else if line = doneLine then
      finishDecode fullResponse requestID
    else
      match unmarshal (line.drop 6) with
      | none => .error .parseError
      | some chunk =>
        let requestID' :=
          if requestID = "" ∧ chunk.id ≠ "" then chunk.id else requestID
        match chunk.choices with
        | [] => decodeLines unmarshal rest fullResponse requestID'
        | choice :: _ =>
          let fullResponse' :=
            if choice.delta.content ≠ "" then
              fullResponse ++ choice.delta.content
            else fullResponse
          if choice.finishReason = "stop" then
            finishDecode fullResponse' requestID'
          else decodeLines unmarshal rest fullResponse' requestID'

/-- Function `processStreamResponse` (main.go lines 336-393): decode a whole
byte stream into the aggregated reply text and correlation id. -/
def processStreamResponse (unmarshal : List Char → Option StreamResponse)
    (input : List Char) : Except ChatError (String × String) :=
  decodeLines unmarshal (splitLines input) "" ""

/-! ## Session state (ChatState, main.go lines 60-68) -/

/-- Go struct `ChatState` (main.go lines 60-68).  The `Client` field is an
external `http.Client` handle carrying no session-visible data and is
omitted. -/
structure ChatState where
  model : String
  history : List Message
  cmdHistory : List String
  debug : Bool
  lastRequestID : String
  isSingleCmd : Bool
deriving DecidableEq, Repr

/-- The system preamble installed by `main` (line 85) and by
`resetConversation` (line 226). -/
def systemPreamble : Message :=
  { role := "system", content := "You are a helpful assistant." }

/-- The `chatState` literal built in `main` (main.go lines 83-90). -/
def initialChatState (model : String) (debug : Bool) (isSingleCmd : Bool) :
    ChatState :=
  { model := model
    history := [systemPreamble]
    cmdHistory := []
    debug := debug
    lastRequestID := ""
    isSingleCmd := isSingleCmd }

/-- Function `resetConversation` (main.go lines 225-229). -/
def resetConversation (state : ChatState) : ChatState :=
  { state with history := [systemPreamble], lastRequestID := "" }

/-- Go `strings.Split(s, " ")` (main.go line 232): cut at every single
space, keeping empty pieces.  `acc` holds the current piece reversed. -/
def splitSpaceAux : List Char → List Char → List String
  | [], acc => [String.mk acc.reverse]
  | c :: cs, acc =>
    if c = ' ' then String.mk acc.reverse :: splitSpaceAux cs []
    else splitSpaceAux cs (c :: acc)

/-- Go `strings.Split(input, " ")` applied to a `String`. -/
def stringsSplitSpace (s : String) : List String := splitSpaceAux s.data []

/-- The five model names accepted by the `switch` in
`handleModelSwitch` (main.go line 240). -/
def allowedModels : List String :=
  ["qwen-plus", "qwen-max", "qwen-turbo", "deepseek-r1", "deepseek-v3"]

/-- Function `handleModelSwitch` (main.go lines 231-246).  With fewer than two
space-separated parts the function only prints the current model; an
unlisted name only prints an error; a listed name becomes the active
model. -/
def handleModelSwitch (input : String) (state : ChatState) : ChatState :=
  match (stringsSplitSpace input).drop 1 with
  | [] => state
  | newModel :: _ =>
    if newModel = "qwen-plus" ∨ newModel = "qwen-max" ∨
        newModel = "qwen-turbo" ∨ newModel = "deepseek-r1" ∨
        newModel = "deepseek-v3" then
      { state with model := newModel }
    else state

/-- Function `toggleDebugMode` (main.go lines 248-251). -/
def toggleDebugMode (state : ChatState) : ChatState :=
  { state with debug := !state.debug }

/-- The unconditional `state.CmdHistory = append(state.CmdHistory, input)`
performed for every accepted input (main.go lines 117 and 164). -/
def recordCommand (state : ChatState) (input : String) : ChatState :=
  { state with cmdHistory := state.cmdHistory ++ [input] }

/-! ## Turn orchestration (main.go lines 111-126, 144-175, 265-296) -/

/-- The user-message append performed just before calling
`processAIResponse` (main.go lines 123 and 170). -/
def appendUserMessage (state : ChatState) (input : String) : ChatState :=
  { state with history := state.history ++ [⟨"user", input⟩] }

/-- Function `processAIResponse` (main.go lines 265-296), with the result of
`streamChatCompletion` — an external HTTP call followed by
`processStreamResponse` — passed in as `outcome`.  On error the
function returns before mutating the state (lines 273-275); on
success it stores the request id and appends the assistant message
(lines 277-281). -/
def processAIResponse (state : ChatState)
    (outcome : Except ChatError (String × String)) :
    Except ChatError (String × ChatState) :=
  match outcome with
  | .error e => .error e
  | .ok (aiReply, requestID) =>
    .ok (aiReply,
      { state with
          lastRequestID := requestID
          history := state.history ++ [⟨"assistant", aiReply⟩] })

/-- One user turn as driven by `startInteractiveSession` (lines
170-173) / `executeSingleCommand` (lines 123-125): append the user
message, then run `processAIResponse`; a failed turn keeps the state
with only the user message appended. -/
def runTurn (state : ChatState) (input : String)
    (outcome : Except ChatError (String × String)) :
    ChatState × Option String :=
  let state1 := appendUserMessage state input
  match processAIResponse state1 outcome with
  | .error _ => (state1, none)
  | .ok (aiReply, state2) => (state2, some aiReply)

/-! ## Helper notions for reasoning about the decoder -/

/-- One encoded event record: the `data: ` mark, a payload, a newline. -/
def encodeLine (payload : List Char) : List Char :=
  dataMark ++ payload ++ ['\n']

/-- A whole event section: each pair carries the raw payload bytes and
the `StreamResponse` that `unmarshal` yields for them. -/
def encodeEvents (evs : List (List Char × StreamResponse)) : List Char :=
  (evs.map fun e => encodeLine e.1).flatten

/-- Well-formedness of one payload/chunk pair with respect to the
ambient unmarshaller: the payload is newline-free, is not the
terminator payload, and parses (with the trailing newline the decoder
leaves on `line[6:]`) to the given chunk. -/
def goodEvent (unmarshal : List Char → Option StreamResponse)
    (e : List Char × StreamResponse) : Prop :=
  '\n' ∉ e.1 ∧ e.1 ≠ "[DONE]".data ∧ unmarshal (e.1 ++ ['\n']) = some e.2

instance (u : List Char → Option StreamResponse)
    (e : List Char × StreamResponse) : Decidable (goodEvent u e) :=
  inferInstanceAs (Decidable (_ ∧ _ ∧ _))

/-- Content contributed by one chunk: the delta content of its first
choice, empty when `choices` is empty. -/
def headContent (c : StreamResponse) : String :=
  match c.choices with
  | [] => ""
  | choice :: _ => choice.delta.content

/-- Whether a chunk ends the decode loop through
`finish_reason == "stop"` on its first choice. -/
def stopsDecode (c : StreamResponse) : Bool :=
  match c.choices with
  | [] => false
  | choice :: _ => choice.finishReason == "stop"

/-- Concatenation, in arrival order, of the contents contributed by a
list of events. -/
def concatContents (evs : List (List Char × StreamResponse)) : String :=
  evs.foldr (fun e r => headContent e.2 ++ r) ""

/-- First non-empty id among the chunks, `""` when there is none. -/
def firstId : List (List Char × StreamResponse) → String
  | [] => ""
  | e :: rest => if e.2.id ≠ "" then e.2.id else firstId rest

/-- Effect of a list of events on the captured request id. -/
def updateRid (rid : String) (evs : List (List Char × StreamResponse)) :
    String :=
  if rid = "" then firstId evs else rid

/-- Sample chunks used to instantiate the abstract unmarshaller. -/
def chunkA : StreamResponse :=
  { id := "r1", model := ""
    choices := [{ delta := { content := "Hel" }, finishReason := "" }] }

/-- Second sample fragment chunk, same correlation id. -/
def chunkB : StreamResponse :=
  { id := "r1", model := ""
    choices := [{ delta := { content := "lo" }, finishReason := "" }] }

/-- A terminating chunk with empty delta content and no id. -/
def stopChunk : StreamResponse :=
  { id := "", model := ""
    choices := [{ delta := { content := "" }, finishReason := "stop" }] }

/-- A terminating chunk that also carries delta content. -/
def stopChunkBang : StreamResponse :=
  { id := "", model := ""
    choices := [{ delta := { content := "!" }, finishReason := "stop" }] }

/-- A finite-table unmarshaller standing in for `json.Unmarshal` on
the concrete payloads used by witnesses and counterexamples. -/
def testUnmarshal (payload : List Char) : Option StreamResponse :=
  if payload = "f1\n".data then some chunkA
  else if payload = "f2\n".data then some chunkB
  else if payload = "f3\n".data then some stopChunk
  else if payload = "f4\n".data then some stopChunkBang
  else none

lemma str_length_eq_zero (s : String) : s.length = 0 ↔ s = "" := by
  cases s with
  | mk d => simp [String.length, String.ext_iff]

lemma finishDecode_ok {acc rid t i : String}
    (h : finishDecode acc rid = .ok (t, i)) : t ≠ "" := by
  unfold finishDecode at h
  split at h
  · exact absurd h (by simp)
  · rename_i hlen
    cases h
    exact fun he => hlen ((str_length_eq_zero _).mpr he)

lemma splitLinesAux_no_newline {t : List Char} (acc : List Char)
    (h : '\n' ∉ t) : splitLinesAux t acc = [] := by
  induction t generalizing acc with
  | nil => rfl
  | cons c cs ih =>
    rw [splitLinesAux]
    rw [if_neg (fun hc => h (List.mem_cons.mpr (Or.inl hc.symm)))]
    exact ih _ (fun hm => h (List.mem_cons_of_mem c hm))

lemma splitLinesAux_line {p : List Char} (h : '\n' ∉ p)
    (t acc : List Char) :
    splitLinesAux (p ++ '\n' :: t) acc =
      (acc ++ p ++ ['\n']) :: splitLinesAux t [] := by
  induction p generalizing acc with
  | nil => simp [splitLinesAux]
  | cons c cs ih =>
    have hc : c ≠ '\n' := fun hc => h (List.mem_cons.mpr (Or.inl hc.symm))
    have hcs : '\n' ∉ cs := fun hm => h (List.mem_cons_of_mem c hm)
    rw [List.cons_append, splitLinesAux, if_neg hc, ih hcs]
    simp

lemma isPrefixOf_append_self (l t : List Char) :
    l.isPrefixOf (l ++ t) = true := by
  induction l with
  | nil => simp [List.isPrefixOf]
  | cons c cs ih => simp [List.isPrefixOf, ih]

lemma dataMark_length : dataMark.length = 6 := rfl

lemma doneLine_decomp : doneLine = dataMark ++ "[DONE]".data ++ ['\n'] := by
  decide

lemma encodeLine_ne_doneLine {p : List Char} (h : p ≠ "[DONE]".data) :
    encodeLine p ≠ doneLine := by
  intro he
  rw [encodeLine, doneLine_decomp, List.append_assoc, List.append_assoc] at he
  exact h (List.append_cancel_right (List.append_cancel_left he))

lemma encodeLine_drop_six (p : List Char) :
    (encodeLine p).drop 6 = p ++ ['\n'] := by
  rw [encodeLine, List.append_assoc, ← dataMark_length, List.drop_left]

lemma encodeLine_not_skipped (p : List Char) :
    ¬ ((encodeLine p).length < 6 ∨ ¬ dataMark.isPrefixOf (encodeLine p)) := by
  rw [encodeLine, List.append_assoc]
  push_neg
  constructor
  · simp [dataMark]
  · exact isPrefixOf_append_self dataMark (p ++ ['\n'])

lemma updateRid_nil (rid : String) : updateRid rid [] = rid := by
  unfold updateRid firstId
  split <;> simp_all

lemma updateRid_cons (rid : String) (e : List Char × StreamResponse)
    (rest : List (List Char × StreamResponse)) :
    updateRid rid (e :: rest) =
      updateRid (if rid = "" ∧ e.2.id ≠ "" then e.2.id else rid) rest := by
  simp only [updateRid, firstId]
  split_ifs <;> simp_all [firstId]

lemma concatContents_cons (e : List Char × StreamResponse)
    (rest : List (List Char × StreamResponse)) :
    concatContents (e :: rest) = headContent e.2 ++ concatContents rest := rfl

/-- The decode loop consumes a block of well-formed, non-terminating
event lines by appending their contents and folding their ids, then
continues with the remaining lines. -/
lemma decodeLines_events (u : List Char → Option StreamResponse)
    (evs : List (List Char × StreamResponse)) :
    ∀ (tailLines : List (List Char)) (acc rid : String),
    (∀ e ∈ evs, goodEvent u e) →
    (∀ e ∈ evs, stopsDecode e.2 = false) →
    decodeLines u ((evs.map fun e => encodeLine e.1) ++ tailLines) acc rid =
      decodeLines u tailLines (acc ++ concatContents evs)
        (updateRid rid evs) := by
  induction evs with
  | nil =>
    intro tailLines acc rid _ _
    simp [concatContents, updateRid_nil, String.append_empty]
  | cons e rest ih =>
    intro tailLines acc rid hgood hstop
    obtain ⟨hnl, hnd, hu⟩ := hgood e (List.mem_cons_self e rest)
    have hst := hstop e (List.mem_cons_self e rest)
    have hgood' := fun x hx => hgood x (List.mem_cons_of_mem e hx)
    have hstop' := fun x hx => hstop x (List.mem_cons_of_mem e hx)
    rw [List.map_cons, List.cons_append, decodeLines,
      if_neg (encodeLine_not_skipped e.1),
      if_neg (encodeLine_ne_doneLine hnd), encodeLine_drop_six, hu]
    rw [updateRid_cons, concatContents_cons]
    cases hc : e.2.choices with
    | nil =>
      have hhc : headContent e.2 = "" := by simp [headContent, hc]
      simp only [hc]
      rw [ih _ _ _ hgood' hstop', hhc, String.empty_append]
    | cons choice cs =>
      have hhc : headContent e.2 = choice.delta.content := by
        simp [headContent, hc]
      have hfr : choice.finishReason ≠ "stop" := by
        simp [stopsDecode, hc] at hst
        exact hst
      have hacc : (if choice.delta.content ≠ "" then
          acc ++ choice.delta.content else acc) = acc ++ headContent e.2 := by
        rw [hhc]
        split
        · rfl
        · rename_i hcc
          push_neg at hcc
          rw [hcc, String.append_empty]
      simp only [hc]
      rw [hacc, if_neg hfr, ih _ _ _ hgood' hstop', String.append_assoc]

lemma finishDecode_of_ne {acc rid : String} (h : acc ≠ "") :
    finishDecode acc rid = .ok (acc, rid) := by
  rw [finishDecode, if_neg (fun h0 => h ((str_length_eq_zero acc).mp h0))]

lemma newline_not_mem_dataMark : '\n' ∉ dataMark := by decide

lemma splitLines_encodeLine_append (p t : List Char) (h : '\n' ∉ p) :
    splitLines (encodeLine p ++ t) = encodeLine p :: splitLines t := by
  have hnp : '\n' ∉ dataMark ++ p := by
    intro hm
    rcases List.mem_append.mp hm with hm | hm
    · exact newline_not_mem_dataMark hm
    · exact h hm
  have he : encodeLine p ++ t = (dataMark ++ p) ++ '\n' :: t := by
    simp [encodeLine]
  rw [splitLines, he, splitLinesAux_line hnp]
  simp [encodeLine, splitLines]

lemma splitLines_encodeEvents (evs : List (List Char × StreamResponse))
    (t : List Char) (h : ∀ e ∈ evs, '\n' ∉ e.1) :
    splitLines (encodeEvents evs ++ t) =
      (evs.map fun e => encodeLine e.1) ++ splitLines t := by
  induction evs with
  | nil => simp [encodeEvents]
  | cons e rest ih =>
    have h1 := h e (List.mem_cons_self e rest)
    have h2 := fun x hx => h x (List.mem_cons_of_mem e hx)
    have he : encodeEvents (e :: rest) ++ t =
        encodeLine e.1 ++ (encodeEvents rest ++ t) := by
      simp [encodeEvents]
    rw [he, splitLines_encodeLine_append _ _ h1, ih h2, List.map_cons,
      List.cons_append]

lemma splitLines_doneLine : splitLines doneLine = [doneLine] := by decide

lemma decodeLines_doneLine (u : List Char → Option StreamResponse)
    (acc rid : String) :
    decodeLines u [doneLine] acc rid = finishDecode acc rid := by
  rw [decodeLines, if_neg (by decide), if_pos rfl]

/-- C1: for every well-formed event stream ending in the `[DONE]`
terminator — newline-free payloads each parsing to their chunk, none
spelling the terminator payload, no record terminating the loop
through `finish_reason == "stop"`, and the fragments concatenating to
a non-empty reply — `processStreamResponse` returns the concatenation,
in arrival order, of the `delta.content` fragments of the first choice
of every parsed record, together with the first non-empty `id` seen
(first-write-wins; later ids are ignored). -/
theorem decode_done_aggregates (u : List Char → Option StreamResponse)
    (evs : List (List Char × StreamResponse))
    (hgood : ∀ e ∈ evs, goodEvent u e)
    (hstop : ∀ e ∈ evs, stopsDecode e.2 = false)
    (hne : concatContents evs ≠ "") :
    processStreamResponse u (encodeEvents evs ++ doneLine) =
      .ok (concatContents evs, firstId evs) := by
  have hnl : ∀ e ∈ evs, '\n' ∉ e.1 := fun e he => (hgood e he).1
  rw [processStreamResponse, splitLines_encodeEvents evs _ hnl,
    splitLines_doneLine, decodeLines_events u evs _ _ _ hgood hstop,
    decodeLines_doneLine, String.empty_append]
  rw [show updateRid "" evs = firstId evs from if_pos rfl]
  exact finishDecode_of_ne hne

/-- Witness for C1 at the concrete two-fragment stream of spec §8. -/
theorem decode_done_aggregates_witness :
    concatContents [("f1".data, chunkA), ("f2".data, chunkB)] ≠ "" ∧
    processStreamResponse testUnmarshal
        (encodeEvents [("f1".data, chunkA), ("f2".data, chunkB)] ++ doneLine) =
      .ok (concatContents [("f1".data, chunkA), ("f2".data, chunkB)],
        firstId [("f1".data, chunkA), ("f2".data, chunkB)]) :=
  ⟨by decide,
    decode_done_aggregates testUnmarshal _ (by decide) (by decide) (by decide)⟩

/-- C2: a stream containing a `data: `-marked record whose payload
fails to parse makes the whole decode fail with the parse error — no
text and no correlation id are returned — regardless of how many
well-formed fragments preceded it and of whatever bytes follow it. -/
theorem decode_malformed_fails (u : List Char → Option StreamResponse)
    (evs : List (List Char × StreamResponse)) (bad rest : List Char)
    (hgood : ∀ e ∈ evs, goodEvent u e)
    (hstop : ∀ e ∈ evs, stopsDecode e.2 = false)
    (hnl : '\n' ∉ bad) (hnd : bad ≠ "[DONE]".data)
    (hu : u (bad ++ ['\n']) = none) :
    processStreamResponse u (encodeEvents evs ++ encodeLine bad ++ rest) =
      .error .parseError := by
  have hnle : ∀ e ∈ evs, '\n' ∉ e.1 := fun e he => (hgood e he).1
  rw [processStreamResponse, List.append_assoc,
    splitLines_encodeEvents evs _ hnle,
    splitLines_encodeLine_append _ _ hnl,
    decodeLines_events u evs _ _ _ hgood hstop, decodeLines,
    if_neg (encodeLine_not_skipped bad),
    if_neg (encodeLine_ne_doneLine hnd), encodeLine_drop_six, hu]

/-- Witness for C2: one good fragment, then an unparseable record. -/
theorem decode_malformed_fails_witness :
    processStreamResponse testUnmarshal
        (encodeEvents [("f1".data, chunkA)] ++ encodeLine "oops".data ++
          "data: f2\n".data) = .error .parseError :=
  decode_malformed_fails testUnmarshal [("f1".data, chunkA)] "oops".data
    "data: f2\n".data (by decide) (by decide) (by decide) (by decide)
    (by decide)

lemma decodeLines_ok_ne_empty (u : List Char → Option StreamResponse)
    (lines : List (List Char)) :
    ∀ acc rid t i, decodeLines u lines acc rid = .ok (t, i) → t ≠ "" := by
  induction lines with
  | nil =>
    intro acc rid t i h
    exact finishDecode_ok h
  | cons line rest ih =>
    intro acc rid t i h
    rw [decodeLines] at h
    split at h
    · exact ih _ _ _ _ h
    · split at h
      · exact finishDecode_ok h
      · rcases hu : u (line.drop 6) with _ | chunk
        · rw [hu] at h
          exact Except.noConfusion h
        · rw [hu] at h
          dsimp only at h
          rcases hc : chunk.choices with _ | ⟨choice, cs⟩
          · rw [hc] at h
            dsimp only at h
            exact ih _ _ _ _ h
          · rw [hc] at h
            dsimp only at h
            split at h
            · exact finishDecode_ok h
            · exact ih _ _ _ _ h

lemma decodeLines_skippable (u : List Char → Option StreamResponse)
    (ls : List (List Char))
    (hls : ∀ l ∈ ls, l.length < 6 ∨ ¬ dataMark.isPrefixOf l) :
    ∀ acc rid, decodeLines u ls acc rid = finishDecode acc rid := by
  induction ls with
  | nil => intro acc rid; rfl
  | cons l rest ih =>
    intro acc rid
    rw [decodeLines, if_pos (hls l (List.mem_cons_self l rest))]
    exact ih (fun x hx => hls x (List.mem_cons_of_mem l hx)) _ _

lemma splitLines_simple (ls : List (List Char)) (tail : List Char)
    (h : ∀ l ∈ ls, '\n' ∉ l) (htail : '\n' ∉ tail) :
    splitLines ((ls.map (fun l => l ++ ['\n'])).flatten ++ tail) =
      ls.map (fun l => l ++ ['\n']) := by
  induction ls with
  | nil => simp [splitLines, splitLinesAux_no_newline _ htail]
  | cons l rest ih =>
    have h1 := h l (List.mem_cons_self l rest)
    have h2 := fun x hx => h x (List.mem_cons_of_mem l hx)
    have he : ((l :: rest).map (fun l => l ++ ['\n'])).flatten ++ tail =
        l ++ '\n' :: ((rest.map (fun l => l ++ ['\n'])).flatten ++ tail) := by
      simp
    rw [he, splitLines, splitLinesAux_line h1, List.nil_append]
    rw [show splitLinesAux ((rest.map (fun l => l ++ ['\n'])).flatten ++ tail)
        [] = splitLines ((rest.map (fun l => l ++ ['\n'])).flatten ++ tail)
      from rfl, ih h2, List.map_cons]

/-- C3: the decoder never succeeds with an empty reply text, and a
stream made only of skippable lines — lines lacking the `data: ` mark,
blank lines, a trailing record cut short of its newline — followed by
end-of-stream decodes to the empty-reply error rather than to an
empty string. -/
theorem decode_empty_is_error (u : List Char → Option StreamResponse) :
    (∀ (input : List Char) (rid : String),
      processStreamResponse u input ≠ .ok ("", rid)) ∧
    (∀ (ls : List (List Char)) (tail : List Char),
      (∀ l ∈ ls, '\n' ∉ l ∧
        ((l ++ ['\n']).length < 6 ∨ ¬ dataMark.isPrefixOf (l ++ ['\n']))) →
      '\n' ∉ tail →
      processStreamResponse u ((ls.map (fun l => l ++ ['\n'])).flatten ++ tail)
        = .error .emptyReply) := by
  constructor
  · intro input rid h
    exact decodeLines_ok_ne_empty u (splitLines input) "" "" "" rid h rfl
  · intro ls tail hls htail
    rw [processStreamResponse,
      splitLines_simple ls tail (fun l hl => (hls l hl).1) htail,
      decodeLines_skippable u _ ?_]
    · rfl
    · intro l hl
      rcases List.mem_map.mp hl with ⟨l0, hl0, rfl⟩
      exact (hls l0 hl0).2

/-- Witness for C3: a comment line, a blank line, a 6-byte non-event
line, and a trailing unterminated record. -/
theorem decode_empty_is_error_witness :
    processStreamResponse testUnmarshal "keep-alive\n\n".data ≠
      .ok ("", "r1") ∧
    processStreamResponse testUnmarshal
        ((([":ka".data, "".data, "data:".data]).map
          (fun l => l ++ ['\n'])).flatten ++ "data".data) =
      .error .emptyReply :=
  ⟨(decode_empty_is_error testUnmarshal).1 _ "r1",
   (decode_empty_is_error testUnmarshal).2 [":ka".data, "".data, "data:".data]
     "data".data (by decide) (by decide)⟩

/-- Counterexample to C4 as stated: after the common well-formed
fragment record with content `Hel`, the stream ending in a record
whose first choice has `finish_reason == "stop"` but also carries
delta content `!` decodes to `Hel!`, while the stream with the same
preceding fragments ending in `data: [DONE]` decodes to `Hel`: the
(full text, correlation id) pairs differ. -/
theorem stop_vs_done_counterexample :
    processStreamResponse testUnmarshal
        (encodeEvents [("f1".data, chunkA)] ++ encodeLine "f4".data) =
      .ok ("Hel!", "r1") ∧
    processStreamResponse testUnmarshal
        (encodeEvents [("f1".data, chunkA)] ++ doneLine) =
      .ok ("Hel", "r1") ∧
    processStreamResponse testUnmarshal
        (encodeEvents [("f1".data, chunkA)] ++ encodeLine "f4".data) ≠
      processStreamResponse testUnmarshal
        (encodeEvents [("f1".data, chunkA)] ++ doneLine) :=
  ⟨by decide, by decide, by decide⟩

/-- C4 amended: given identical well-formed preceding fragments, a
stream ending via a record whose first choice carries
`finish_reason == "stop"` yields the same (full text, correlation id)
pair as one ending via `data: [DONE]`, provided that terminating
record itself contributes nothing: empty delta content on its first
choice and an empty id. -/
theorem stop_matches_done (u : List Char → Option StreamResponse)
    (evs : List (List Char × StreamResponse)) (p : List Char)
    (c : StreamResponse)
    (hgood : ∀ e ∈ evs, goodEvent u e)
    (hstop : ∀ e ∈ evs, stopsDecode e.2 = false)
    (hp : goodEvent u (p, c))
    (hcstop : stopsDecode c = true)
    (hcontent : headContent c = "")
    (hid : c.id = "") :
    processStreamResponse u (encodeEvents evs ++ encodeLine p) =
      processStreamResponse u (encodeEvents evs ++ doneLine) := by
  obtain ⟨hnl, hnd, hu⟩ := hp
  have hnle : ∀ e ∈ evs, '\n' ∉ e.1 := fun e he => (hgood e he).1
  have hsp : splitLines (encodeLine p) = [encodeLine p] := by
    have h0 := splitLines_encodeLine_append p [] hnl
    simpa [splitLines, splitLinesAux] using h0
  rw [processStreamResponse, processStreamResponse,
    splitLines_encodeEvents evs _ hnle, splitLines_encodeEvents evs _ hnle,
    splitLines_doneLine, hsp,
    decodeLines_events u evs _ _ _ hgood hstop,
    decodeLines_events u evs _ _ _ hgood hstop,
    decodeLines_doneLine]
  rw [decodeLines, if_neg (encodeLine_not_skipped p),
    if_neg (encodeLine_ne_doneLine hnd), encodeLine_drop_six, hu]
  dsimp only
  rcases hc : c.choices with _ | ⟨choice, cs⟩
  · rw [stopsDecode, hc] at hcstop
    exact absurd hcstop (by simp)
  · have hfr : choice.finishReason = "stop" := by
      rw [stopsDecode, hc] at hcstop
      exact beq_iff_eq.mp hcstop
    have hcc : choice.delta.content = "" := by
      rw [headContent, hc] at hcontent
      exact hcontent
    dsimp only
    rw [if_pos hfr, if_neg (by simp [hcc]), if_neg (by simp [hid])]

/-- Witness for the amended C4 at a concrete fragment and a
content-free terminating record. -/
theorem stop_matches_done_witness :
    processStreamResponse testUnmarshal
        (encodeEvents [("f1".data, chunkA)] ++ encodeLine "f3".data) =
      processStreamResponse testUnmarshal
        (encodeEvents [("f1".data, chunkA)] ++ doneLine) :=
  stop_matches_done testUnmarshal [("f1".data, chunkA)] "f3".data stopChunk
    (by decide) (by decide) (by decide) (by decide) (by decide) (by decide)

lemma splitLinesAux_append_term :
    ∀ s : List Char, s.getLast? = some '\n' →
    ∀ t acc : List Char,
    splitLinesAux (s ++ t) acc = splitLinesAux s acc ++ splitLinesAux t [] := by
  intro s
  induction s with
  | nil => intro hs; simp at hs
  | cons c cs ih =>
    intro hs t acc
    cases hcs : cs with
    | nil =>
      subst hcs
      simp only [List.getLast?_singleton, Option.some_inj] at hs
      subst hs
      simp [splitLinesAux]
    | cons d ds =>
      have hcs' : cs.getLast? = some '\n' := by
        rw [hcs]
        rw [hcs, List.getLast?_cons_cons] at hs
        exact hs
      rw [List.cons_append, splitLinesAux, splitLinesAux]
      by_cases hc : c = '\n'
      · rw [if_pos hc, if_pos hc, ← hcs, ih hcs' t []]
        simp
      · rw [if_neg hc, if_neg hc, ← hcs, ih hcs' t (acc ++ [c])]

/-- C9: bytes after the last newline of the stream contribute nothing
to the decode — even when they spell a valid `data: ` event or the
`[DONE]` terminator — because the loop breaks on end-of-stream before
processing a line lacking its trailing newline: decoding a
newline-complete stream followed by unterminated trailing bytes equals
decoding the stream truncated at that last newline. -/
theorem trailing_bytes_ignored (u : List Char → Option StreamResponse)
    (s tail : List Char) (hs : s = [] ∨ s.getLast? = some '\n')
    (htail : '\n' ∉ tail) :
    processStreamResponse u (s ++ tail) = processStreamResponse u s := by
  rcases hs with rfl | hs
  · rw [List.nil_append, processStreamResponse, processStreamResponse,
      splitLines, splitLines, splitLinesAux_no_newline _ htail]
    rfl
  · rw [processStreamResponse, processStreamResponse, splitLines, splitLines,
      splitLinesAux_append_term s hs tail [],
      splitLinesAux_no_newline _ htail, List.append_nil]

/-- Witness for C9: an unterminated `data: [DONE]` after a complete
fragment line changes nothing. -/
theorem trailing_bytes_ignored_witness :
    processStreamResponse testUnmarshal
        (encodeLine "f1".data ++ "data: [DONE]".data) =
      processStreamResponse testUnmarshal (encodeLine "f1".data) :=
  trailing_bytes_ignored testUnmarshal _ _ (by decide) (by decide)

/-- C5: a turn whose transport or decode step fails leaves the
history at exactly its pre-turn length plus one: the user message is
appended before the call and is not rolled back, and no assistant
message is appended on the failure path. -/
theorem failed_turn_history_length (state : ChatState) (input : String)
    (e : ChatError) :
    ((runTurn state input (.error e)).1).history.length =
      state.history.length + 1 := by
  simp [runTurn, processAIResponse, appendUserMessage]

/-- C6: reset always leaves the history as the single system
preamble, clears the last correlation id, and leaves the raw command
log (and the rest of the state) unchanged. -/
theorem resetConversation_spec (state : ChatState) :
    (resetConversation state).history = [systemPreamble] ∧
    (resetConversation state).lastRequestID = "" ∧
    (resetConversation state).cmdHistory = state.cmdHistory ∧
    (resetConversation state).model = state.model ∧
    (resetConversation state).debug = state.debug :=
  ⟨rfl, rfl, rfl, rfl, rfl⟩

/-- C7: a model switch whose target (the second space-separated part
of the input) is absent from the five-name allow-list leaves the
state unchanged; a listed target replaces the active model and
changes nothing else; an input with no target part changes nothing.
Validation is purely local string matching. -/
theorem handleModelSwitch_spec (state : ChatState) (input : String) :
    ((stringsSplitSpace input).drop 1 = [] →
      handleModelSwitch input state = state) ∧
    (∀ name rest, (stringsSplitSpace input).drop 1 = name :: rest →
      (name ∈ allowedModels →
        handleModelSwitch input state = { state with model := name }) ∧
      (name ∉ allowedModels → handleModelSwitch input state = state)) := by
  constructor
  · intro h
    rw [handleModelSwitch, h]
  · intro name rest h
    constructor
    · intro hmem
      have hor : name = "qwen-plus" ∨ name = "qwen-max" ∨
          name = "qwen-turbo" ∨ name = "deepseek-r1" ∨
          name = "deepseek-v3" := by
        simpa [allowedModels] using hmem
      rw [handleModelSwitch, h]
      dsimp only
      rw [if_pos hor]
    · intro hmem
      have hor : ¬ (name = "qwen-plus" ∨ name = "qwen-max" ∨
          name = "qwen-turbo" ∨ name = "deepseek-r1" ∨
          name = "deepseek-v3") := by
        simpa [allowedModels] using hmem
      rw [handleModelSwitch, h]
      dsimp only
      rw [if_neg hor]

/-- Witness for C7: a listed and an unlisted switch on a concrete
state. -/
theorem handleModelSwitch_spec_witness :
    handleModelSwitch "/model qwen-max"
        (initialChatState "qwen-plus" false false) =
      { initialChatState "qwen-plus" false false with model := "qwen-max" } ∧
    handleModelSwitch "/model gpt-4"
        (initialChatState "qwen-plus" false false) =
      initialChatState "qwen-plus" false false :=
  ⟨((handleModelSwitch_spec (initialChatState "qwen-plus" false false)
      "/model qwen-max").2 "qwen-max" [] (by decide)).1 (by decide),
   ((handleModelSwitch_spec (initialChatState "qwen-plus" false false)
      "/model gpt-4").2 "gpt-4" [] (by decide)).2 (by decide)⟩

/-- The invariant of C8: the history is non-empty and its first
message has role `system`. -/
def headIsSystem (state : ChatState) : Prop :=
  state.history ≠ [] ∧ state.history.head?.map Message.role = some "system"

instance (state : ChatState) : Decidable (headIsSystem state) :=
  inferInstanceAs (Decidable (_ ∧ _))

/-- C8: the invariant — history non-empty with a system-role first
message — holds of the initial state and is preserved by every
session operation: reset (which replaces the history wholesale by the
preamble), model switch, debug toggle, command recording, and both
successful and failed turns (which only ever append). -/
theorem system_head_invariant :
    (∀ model debug isSingleCmd,
      headIsSystem (initialChatState model debug isSingleCmd)) ∧
    (∀ state, headIsSystem (resetConversation state)) ∧
    (∀ state input, headIsSystem state →
      headIsSystem (handleModelSwitch input state)) ∧
    (∀ state, headIsSystem state → headIsSystem (toggleDebugMode state)) ∧
    (∀ state input, headIsSystem state →
      headIsSystem (recordCommand state input)) ∧
    (∀ state input outcome, headIsSystem state →
      headIsSystem (runTurn state input outcome).1) := by
  refine ⟨fun model debug isSingleCmd => ⟨by simp [initialChatState], rfl⟩,
    fun state => ⟨by simp [resetConversation], rfl⟩, ?_, ?_, ?_, ?_⟩
  · intro state input h
    rw [handleModelSwitch]
    cases (stringsSplitSpace input).drop 1 with
    | nil => exact h
    | cons name rest =>
      dsimp only
      split
      · exact ⟨h.1, h.2⟩
      · exact h
  · exact fun state h => ⟨h.1, h.2⟩
  · exact fun state input h => ⟨h.1, h.2⟩
  · intro state input outcome h
    obtain ⟨hne, hrole⟩ := h
    cases hh : state.history with
    | nil => exact absurd hh hne
    | cons m ms =>
      rw [hh] at hrole
      cases outcome with
      | error e =>
        refine ⟨by simp [runTurn, processAIResponse, appendUserMessage, hh], ?_⟩
        simp only [runTurn, processAIResponse, appendUserMessage, hh]
        simpa using hrole
      | ok v =>
        refine ⟨by simp [runTurn, processAIResponse, appendUserMessage, hh], ?_⟩
        simp only [runTurn, processAIResponse, appendUserMessage, hh]
        simpa using hrole

/-- Witness for C8: the invariant carried across a successful turn on
the freshly initialised state. -/
theorem system_head_invariant_witness :
    headIsSystem (runTurn (initialChatState "qwen-plus" false false) "hi"
      (.ok ("Hello", "r1"))).1 :=
  system_head_invariant.2.2.2.2.2 (initialChatState "qwen-plus" false false)
    "hi" (.ok ("Hello", "r1")) (by decide)

/-- C10: a failed turn leaves every session field other than the
conversation history unchanged — the last correlation id, the active
model, the debug flag, the command log and the single-shot flag — and
produces no reply; the correlation id is overwritten only on the
success path, where it becomes the id returned by the decode. -/
theorem failed_turn_frame (state : ChatState) (input : String)
    (e : ChatError) :
    (runTurn state input (.error e)).1.model = state.model ∧
    (runTurn state input (.error e)).1.cmdHistory = state.cmdHistory ∧
    (runTurn state input (.error e)).1.debug = state.debug ∧
    (runTurn state input (.error e)).1.lastRequestID = state.lastRequestID ∧
    (runTurn state input (.error e)).1.isSingleCmd = state.isSingleCmd ∧
    (runTurn state input (.error e)).2 = none ∧
    (∀ reply rid,
      (runTurn state input (.ok (reply, rid))).1.lastRequestID = rid) :=
  ⟨rfl, rfl, rfl, rfl, rfl, rfl, fun _ _ => rfl⟩
